import Mathlib

/-!
# Verification of the SAS material-supply reconciliation core

Shallow embedding of the record-linkage and master-view pipeline of
`src/utils/data_loader.py` (functions `match_consumption_to_workpacks`,
`get_master_view`, `add_utilization_data`, `load_planned_material`), together
with proofs and refutations of the specified properties.

Modelling conventions (pandas semantics):
* A nullable column value is an `Option`; `none` stands for `NaN`/`NaT`.
* Boolean-mask equality (`df[col] == x`) is *null-rejecting*: a comparison
  involving a null is `False` (`optEqStr`/`optEqInt` below).  By contrast,
  `pd.merge` join keys treat `NaN` as a joinable value equal to itself, so the
  merge step uses plain `Option` equality.
* Timestamps are modelled as integers (`Int`); only their ordering matters.
* Float columns produced by the pipeline hold finite rationals or `NaN`
  (`Option ℚ`); the one place where numpy float division can produce an
  infinity (`hours / cycles`) returns a value of the three-way type `PF`
  (finite / ±infinity / NaN), with division defined as numpy defines it on
  finite operands.
* `Series.mode()` drops nulls and returns the modes **sorted ascending**, so
  `mode()[0]` is the least mode in lexicographic string order; Python and Lean
  compare strings by code point.
* `Series.unique()` keeps first occurrences (`firstDedupInt`); `groupby` emits
  one group per distinct non-null key (pandas sorts group keys; no property
  below depends on the order of the emitted rows, so rows are emitted here in
  first-occurrence order of their keys).
* `sort_values(...).iloc[0]` selects an extremal row; with `na_position`
  defaulting to `'last'`, nulls sort after every real date in either
  direction.  pandas' default quicksort leaves the choice among tied rows
  unspecified; the embedding picks the first tied row (`List.argmax`/
  `List.argmin`), a deterministic refinement, and every theorem below only
  uses that the chosen row is extremal.
-/

set_option maxRecDepth 65536
set_option maxHeartbeats 1600000

namespace SAS

/-- Null-rejecting equality of nullable strings: a pandas `==` mask comparison
is `False` whenever either side is `NaN`. -/
def optEqStr : Option String → Option String → Bool
  | some a, some b => a == b
  | _, _ => false

/-- Null-rejecting equality of nullable integer keys (`wpno_i` comparisons). -/
def optEqInt : Option Int → Option Int → Bool
  | some a, some b => a == b
  | _, _ => false

/-- `needle` occurs as a contiguous substring of `hay` (both as char lists). -/
def containsSub : List Char → List Char → Bool
  | _, [] => true
  | [], _ :: _ => false
  | c :: cs, n :: ns => (n :: ns).isPrefixOf (c :: cs) || containsSub cs (n :: ns)

/-- `Series.str.contains(pat, case=False, na=False)` for a literal pattern:
case-insensitive substring test, null receiver yields `False`.  (Aircraft
registrations contain no regex metacharacters, so `contains`' regex search
coincides with substring search.) -/
def receiverContainsCI (receiver : Option String) (pat : String) : Bool :=
  match receiver with
  | none => false
  | some s => containsSub s.toLower.data pat.toLower.data

/-- One consumption line item as the Matcher sees it (a row of
`consumption_detail_df` after date coercion). -/
structure Cons where
  wpno_i : Option Int
  del_date : Option Int
  station : Option String
  receiver : Option String
  ac_registr : Option String
  qty : ℚ
  average_price : ℚ
  material_category : String
  deriving DecidableEq, Repr

/-- One work-package row (`workpacks_df`). -/
structure WP where
  wpno_i : Option Int
  start_date : Option Int
  end_date : Option Int
  station : Option String
  ac_registr : Option String
  deriving DecidableEq, Repr

/-- One utilization snapshot row (`utilization_df`). -/
structure Util where
  ac_registr : Option String
  date : Option Int
  tah : ℚ
  tac : ℚ
  deriving DecidableEq, Repr

/-- One raw planned-material line item (`uploaded_planned`). -/
structure PlannedItem where
  wpno_i : Option Int
  partno : Option String
  qty : ℚ
  confirmed_qty : ℚ
  average_price : ℚ
  deriving DecidableEq, Repr

/-- A numpy double restricted to the values this pipeline can produce:
finite rationals, signed infinities, NaN. -/
inductive PF where
  | nan : PF
  | inf (pos : Bool) : PF
  | val (q : ℚ) : PF
  deriving DecidableEq, Repr

/-- A `PF` is finite iff it is a real (non-NaN, non-infinite) value. -/
def PF.isFinite : PF → Bool
  | PF.val _ => true
  | _ => false

/-- numpy float division on nullable finite operands: `NaN` propagates,
`x/0` is `±∞` by the sign of `x`, `0/0` is `NaN`, never an exception. -/
def pdiv (a b : Option ℚ) : PF :=
  match a, b with
  | some h, some c =>
      if c = 0 then (if h = 0 then PF.nan else PF.inf (decide (0 < h)))
      else PF.val (h / c)
  | _, _ => PF.nan

/-- Least element of a nonempty list of strings (lexicographic code-point
order, as Python compares strings). -/
def strListMin (v : String) (vs : List String) : String :=
  vs.foldl min v

/-- `Series.mode()[0]` on the nonempty non-null values `v :: vs`: among the
values of maximal multiplicity (the modes), return the least one — pandas
returns the modes sorted ascending and `[0]` takes the first. -/
def leastMode (v : String) (vs : List String) : Option String :=
  match (v :: vs).filter
      fun w => (v :: vs).count w =
        ((v :: vs).map fun w => (v :: vs).count w).foldl max 0 with
  | [] => some v
  | m :: ms => some (strListMin m ms)

/-- `Series.mode()[0] if len(mode) > 0 else Series.iloc[0]` on a station
column: drop nulls and take the least mode; if every value is null, fall
back to the first row's (null) station. -/
def stationModeFirst (l : List (Option String)) : Option String :=
  match l.filterMap id with
  | [] => (l.head?).getD none
  | v :: vs => leastMode v vs

/-- One output row of the Matcher (one dict appended to
`matched_consumption`), carrying the list `items` of matched line items that
the aggregates are computed from (the `matches` frame). -/
structure MatchedRow where
  wpno_i : Option Int
  matched_by : String
  items : List Cons
  consumed_parts_count : Nat
  consumed_qty : ℚ
  consumed_cost : ℚ
  consumption_station : Option String
  deriving DecidableEq, Repr

/-- Build the aggregate row from the matched line items: row count, summed
absolute quantity, summed cost, dominant station.  (The date-range and
category sub-total fields of the dict are derivable from `items` and are not
referenced by any property below.) -/
def mkRow (k : Option Int) (tag : String) (ms : List Cons) : MatchedRow :=
  { wpno_i := k
    matched_by := tag
    items := ms
    consumed_parts_count := ms.length
    consumed_qty := (ms.map fun c => |c.qty|).sum
    consumed_cost := (ms.map Cons.average_price).sum
    consumption_station := stationModeFirst (ms.map Cons.station) }

/-- Worker for `firstDedupInt`: drop every value already seen. -/
def firstDedupGo (seen : List Int) : List Int → List Int
  | [] => []
  | a :: l => if a ∈ seen then firstDedupGo seen l else a :: firstDedupGo (a :: seen) l

/-- `Series.unique()` on integer keys: keep the first occurrence of each
distinct value. -/
def firstDedupInt (l : List Int) : List Int :=
  firstDedupGo [] l

/-- The direct-match row for one work-package key `k`: aggregate the keyed
consumption rows whose key equals `k`, tagging `WPNO_I`; a key with no
matching rows produces no output row. -/
def directRowFor (keyed : List Cons) (k : Int) : Option MatchedRow :=
  match keyed.filter fun c => optEqInt c.wpno_i (some k) with
  | [] => none
  | c :: cs => some (mkRow (some k) "WPNO_I" (c :: cs))

/-- Strategy 1 (direct match): one candidate row per distinct non-null
`wpno_i` of the work-package table (`Series.unique()` skipping `NaN`). -/
def directRows (wps : List WP) (keyed : List Cons) : List MatchedRow :=
  (firstDedupInt (wps.filterMap WP.wpno_i)).filterMap (directRowFor keyed)

/-- Step (a) of the heuristic: unkeyed items whose delivery date lies in the
inclusive window `[s, e]` and whose station equals the work package's
station (null dates and null stations never match). -/
def timeStationFilter (unkeyed : List Cons) (wp : WP) (s e : Int) : List Cons :=
  unkeyed.filter fun c =>
    (match c.del_date with
     | some d => decide (s ≤ d ∧ d ≤ e)
     | none => false)
    && optEqStr c.station wp.station

/-- Steps (a)+(b) of the heuristic: time+station filter, then, when the work
package has a known registration, narrow to items with that registration;
if empty, to items whose receiver contains it case-insensitively; if that is
also empty, keep the unnarrowed set. -/
def heuristicCandidates (unkeyed : List Cons) (wp : WP) (s e : Int) : List Cons :=
  match wp.ac_registr with
  | none => timeStationFilter unkeyed wp s e
  | some r =>
      match (timeStationFilter unkeyed wp s e).filter
          fun c => optEqStr c.ac_registr (some r) with
      | a :: as_ => a :: as_
      | [] =>
          match (timeStationFilter unkeyed wp s e).filter
              fun c => receiverContainsCI c.receiver r with
          | b :: bs => b :: bs
          | [] => timeStationFilter unkeyed wp s e

/-- Strategy 2 (heuristic match): iterate work packages in table order; skip
those with a null start or end date and those already satisfied by a
`WPNO_I` row (the skip test `m.wpno_i == wp.wpno_i and m.matched_by ==
'WPNO_I'` only ever selects rows of the `direct` list, since every row the
loop itself appends is tagged `TIME+STATION+RECEIVER`); aggregate the
candidate set when nonempty, tagging `TIME+STATION+RECEIVER`. -/
def heuristicRowFor (unkeyed : List Cons) (direct : List MatchedRow) (wp : WP) :
    Option MatchedRow :=
  match wp.start_date, wp.end_date with
  | some s, some e =>
      if direct.any fun m =>
          optEqInt m.wpno_i wp.wpno_i && (m.matched_by == "WPNO_I") then none
      else
        match heuristicCandidates unkeyed wp s e with
        | [] => none
        | c :: cs => some (mkRow wp.wpno_i "TIME+STATION+RECEIVER" (c :: cs))
  | _, _ => none

/-- Strategy 2 over the whole work-package table, in table order. -/
def heuristicRows (wps : List WP) (unkeyed : List Cons) (direct : List MatchedRow) :
    List MatchedRow :=
  wps.filterMap (heuristicRowFor unkeyed direct)

/-- `match_consumption_to_workpacks`: `None` on an empty consumption table,
otherwise the direct rows followed by the heuristic rows, or `None` when no
row matched at all. -/
def match_consumption_to_workpacks (wps : List WP) (consumption : List Cons) :
    Option (List MatchedRow) :=
  if consumption.isEmpty then none
  else
    let keyed := consumption.filter fun c => c.wpno_i.isSome
    let unkeyed := consumption.filter fun c => c.wpno_i.isNone
    let direct := directRows wps keyed
    let rows := direct ++ heuristicRows wps unkeyed direct
    if rows.isEmpty then none else some rows

/-- One aggregated planned-material row (`load_planned_material` output);
group keys are the distinct non-null `wpno_i` values. -/
structure PlannedAgg where
  wpno_i : Int
  planned_parts_count : Nat
  planned_qty : ℚ
  planned_confirmed_qty : ℚ
  planned_cost : ℚ
  deriving DecidableEq, Repr

/-- `load_planned_material`: drop rows with a null key, group by `wpno_i`,
and aggregate: `partno: count` counts the group's non-null part numbers,
quantities and costs are summed.  (The derived `planned_avg_price` column is
not referenced by any property below.) -/
def planned_agg (raw : List PlannedItem) : List PlannedAgg :=
  let clean := raw.filter fun p => p.wpno_i.isSome
  (firstDedupInt (clean.filterMap PlannedItem.wpno_i)).map fun k =>
    let g := clean.filter fun p => optEqInt p.wpno_i (some k)
    { wpno_i := k
      planned_parts_count := (g.filter fun p => p.partno.isSome).length
      planned_qty := (g.map PlannedItem.qty).sum
      planned_confirmed_qty := (g.map PlannedItem.confirmed_qty).sum
      planned_cost := (g.map PlannedItem.average_price).sum }

/-- Sort key for `sort_values('date', ascending=False)`: nulls go last, i.e.
below every real date. -/
def dateKeyBot (u : Util) : WithBot Int :=
  match u.date with
  | some d => (d : WithBot Int)
  | none => ⊥

/-- Sort key for `sort_values('date')` (ascending): nulls go last, i.e. above
every real date. -/
def dateKeyTop (u : Util) : WithTop Int :=
  match u.date with
  | some d => (d : WithTop Int)
  | none => ⊤

/-- `get_latest_util` (inside `add_utilization_data`): for a work package with
known registration and start date, take that aircraft's snapshots; among
those dated at or before the start date pick the one with the greatest date
(`sort_values` descending, `iloc[0]`); if none qualify, fall back to the
snapshot with the least date (`sort_values` ascending, `iloc[0]`); with no
snapshots at all, or a null registration or start date, both fields are
null. -/
def get_latest_util (util : List Util) (wp : WP) : Option (ℚ × ℚ) :=
  match wp.ac_registr, wp.start_date with
  | some r, some s =>
      let acUtil := util.filter fun u => optEqStr u.ac_registr (some r)
      if acUtil.isEmpty then none
      else
        let elig := acUtil.filter fun u =>
          match u.date with
          | some d => decide (d ≤ s)
          | none => false
        match elig.argmax dateKeyBot with
        | some u => some (u.tah, u.tac)
        | none =>
            match acUtil.argmin dateKeyTop with
            | some u => some (u.tah, u.tac)
            | none => none
  | _, _ => none

/-- One row of the master view: the work-package row enriched with the
utilization fields, the merged Matcher row, the merged planned aggregate, and
the derived metrics.  (`consumption_validated`, `qty_variance` and
`cost_variance` are derivable from `matched`/`planned` and are not referenced
by any property below.) -/
structure Master where
  wp : WP
  aircraft_hours : Option ℚ
  aircraft_cycles : Option ℚ
  hours_per_cycle : PF
  matched : Option MatchedRow
  planned : Option PlannedAgg
  parts_variance : Option ℚ
  planning_accuracy : Option ℚ
  deriving DecidableEq, Repr

/-- The `consumed_parts_count` column of a master row (null when the merge
found no Matcher row). -/
def Master.consumed_parts_count (m : Master) : Option Nat :=
  m.matched.map MatchedRow.consumed_parts_count

/-- The `planned_parts_count` column of a master row (null when the merge
found no planned aggregate). -/
def Master.planned_parts_count (m : Master) : Option Nat :=
  m.planned.map PlannedAgg.planned_parts_count

/-- Assemble one master row: `hours_per_cycle = aircraft_hours /
aircraft_cycles` (numpy float division), `parts_variance =
consumed_parts_count - planned_parts_count` (null-propagating), and
`planning_accuracy = np.where(planned > 0 & consumed notna,
(1 - |parts_variance| / planned) * 100, NaN)`. -/
def mkMaster (wp : WP) (u : Option (ℚ × ℚ)) (m : Option MatchedRow)
    (p : Option PlannedAgg) : Master :=
  let cCnt : Option Nat := m.map MatchedRow.consumed_parts_count
  let pCnt : Option Nat := p.map PlannedAgg.planned_parts_count
  let pv : Option ℚ :=
    match cCnt, pCnt with
    | some c, some q => some ((c : ℚ) - (q : ℚ))
    | _, _ => none
  { wp := wp
    aircraft_hours := u.map Prod.fst
    aircraft_cycles := u.map Prod.snd
    hours_per_cycle := pdiv (u.map Prod.fst) (u.map Prod.snd)
    matched := m
    planned := p
    parts_variance := pv
    planning_accuracy :=
      match pCnt, pv with
      | some q, some v => if 0 < q then some ((1 - |v| / (q : ℚ)) * 100) else none
      | _, _ => none }

/-- The Matcher rows merged onto a work-package row by
`merge(on='wpno_i', how='left')`: all rows with an equal key, or a single
null when there is none (also when the Matcher returned `None` and the
consumption columns were filled with `NaN`). -/
def consLookup (matchedQ : Option (List MatchedRow)) (wp : WP) :
    List (Option MatchedRow) :=
  match matchedQ with
  | none => [none]
  | some rows =>
      match rows.filter fun m => m.wpno_i == wp.wpno_i with
      | [] => [none]
      | m :: ms => (m :: ms).map some

/-- The planned aggregates merged onto a work-package row by
`merge(on='wpno_i', how='left')`. -/
def plannedLookup (pl : List PlannedAgg) (wp : WP) : List (Option PlannedAgg) :=
  match pl.filter fun p => (some p.wpno_i : Option Int) == wp.wpno_i with
  | [] => [none]
  | q :: qs => (q :: qs).map some

/-- All master rows produced from one work-package row: one per combination
of merged Matcher row and merged planned aggregate. -/
def masterRowsFor (util : List Util) (matchedQ : Option (List MatchedRow))
    (pl : List PlannedAgg) (wp : WP) : List Master :=
  (consLookup matchedQ wp).flatMap fun m =>
    (plannedLookup pl wp).map fun p =>
      mkMaster wp (get_latest_util util wp) m p

/-- `get_master_view`: start from the work-package rows, add the utilization
fields row-wise, then left-merge the Matcher output and the planned
aggregates on `wpno_i` and derive the variance and accuracy metrics.  A left
merge keeps one row per matching right row and one null-filled row when there
is none (pandas merge keys treat `NaN` as equal to `NaN`, hence plain
`Option` equality). -/
def get_master_view (wps : List WP) (util : List Util) (cons : List Cons)
    (plannedRaw : List PlannedItem) : List Master :=
  wps.flatMap
    (masterRowsFor util (match_consumption_to_workpacks wps cons) (planned_agg plannedRaw))

/-! ## Basic lemmas about the embedded operations -/

lemma mem_firstDedupGo {b : Int} : ∀ {l seen : List Int},
    b ∈ firstDedupGo seen l ↔ b ∈ l ∧ b ∉ seen := by
  intro l
  induction l with
  | nil => simp [firstDedupGo]
  | cons a l ih =>
      intro seen
      by_cases ha : a ∈ seen
      · simp only [firstDedupGo, if_pos ha, ih, List.mem_cons]
        constructor
        · rintro ⟨hb, hs⟩; exact ⟨Or.inr hb, hs⟩
        · rintro ⟨hb | hb, hs⟩
          · exact absurd (hb ▸ ha) hs
          · exact ⟨hb, hs⟩
      · simp only [firstDedupGo, if_neg ha, List.mem_cons, ih]
        constructor
        · rintro (rfl | ⟨hb, hs⟩)
          · exact ⟨Or.inl rfl, ha⟩
          · exact ⟨Or.inr hb, fun h => hs (Or.inr h)⟩
        · rintro ⟨rfl | hb, hs⟩
          · exact Or.inl rfl
          · by_cases hba : b = a
            · exact Or.inl hba
            · exact Or.inr ⟨hb, fun h => h.elim hba hs⟩

lemma nodup_firstDedupGo : ∀ {l seen : List Int}, (firstDedupGo seen l).Nodup := by
  intro l
  induction l with
  | nil => simp [firstDedupGo]
  | cons a l ih =>
      intro seen
      by_cases ha : a ∈ seen
      · simpa [firstDedupGo, if_pos ha] using ih
      · simp only [firstDedupGo, if_neg ha, List.nodup_cons]
        refine ⟨fun h => ?_, ih⟩
        exact (mem_firstDedupGo.mp h).2 (List.mem_cons_self _ _)

lemma mem_firstDedupInt {b : Int} {l : List Int} : b ∈ firstDedupInt l ↔ b ∈ l := by
  simp [firstDedupInt, mem_firstDedupGo]

lemma nodup_firstDedupInt (l : List Int) : (firstDedupInt l).Nodup :=
  nodup_firstDedupGo

lemma mkRow_wpno (k : Option Int) (tag : String) (ms : List Cons) :
    (mkRow k tag ms).wpno_i = k := rfl

lemma mkRow_tag (k : Option Int) (tag : String) (ms : List Cons) :
    (mkRow k tag ms).matched_by = tag := rfl

lemma mkRow_items (k : Option Int) (tag : String) (ms : List Cons) :
    (mkRow k tag ms).items = ms := rfl

lemma optEqInt_some_some {a b : Int} : optEqInt (some a) (some b) = true ↔ a = b := by
  simp [optEqInt]

lemma directRowFor_eq_some {keyed : List Cons} {k : Int} {r : MatchedRow} :
    directRowFor keyed k = some r ↔
      (keyed.filter fun c => optEqInt c.wpno_i (some k)) ≠ [] ∧
        r = mkRow (some k) "WPNO_I" (keyed.filter fun c => optEqInt c.wpno_i (some k)) := by
  unfold directRowFor
  cases h : keyed.filter fun c => optEqInt c.wpno_i (some k) with
  | nil => simp
  | cons c cs => simp [eq_comm]

lemma mem_directRows {wps : List WP} {keyed : List Cons} {r : MatchedRow} :
    r ∈ directRows wps keyed ↔
      ∃ k, k ∈ wps.filterMap WP.wpno_i ∧
        (keyed.filter fun c => optEqInt c.wpno_i (some k)) ≠ [] ∧
        r = mkRow (some k) "WPNO_I" (keyed.filter fun c => optEqInt c.wpno_i (some k)) := by
  simp only [directRows, List.mem_filterMap, mem_firstDedupInt, directRowFor_eq_some]

lemma heuristicRowFor_eq_some {unkeyed : List Cons} {direct : List MatchedRow}
    {wp : WP} {r : MatchedRow} :
    heuristicRowFor unkeyed direct wp = some r ↔
      ∃ s e, wp.start_date = some s ∧ wp.end_date = some e ∧
        (direct.any fun m =>
          optEqInt m.wpno_i wp.wpno_i && (m.matched_by == "WPNO_I")) = false ∧
        heuristicCandidates unkeyed wp s e ≠ [] ∧
        r = mkRow wp.wpno_i "TIME+STATION+RECEIVER" (heuristicCandidates unkeyed wp s e) := by
  unfold heuristicRowFor
  cases hs : wp.start_date with
  | none => simp
  | some s =>
      cases he : wp.end_date with
      | none => simp
      | some e =>
          by_cases hg : (direct.any fun m =>
              optEqInt m.wpno_i wp.wpno_i && (m.matched_by == "WPNO_I")) = true
          · simp [hg]
          · rw [Bool.not_eq_true] at hg
            cases hc : heuristicCandidates unkeyed wp s e with
            | nil => simp [hg, hc]
            | cons c cs =>
                simp only [hg, Bool.false_eq_true, if_false, hc, Option.some.injEq,
                  ne_eq, true_and]
                constructor
                · intro h
                  exact ⟨s, e, rfl, rfl, by simp [hc], by rw [hc]; exact h.symm⟩
                · rintro ⟨s1, e1, rfl, rfl, hne, hr⟩
                  rw [hr, hc]

lemma mem_heuristicRows {wps : List WP} {unkeyed : List Cons}
    {direct : List MatchedRow} {r : MatchedRow} :
    r ∈ heuristicRows wps unkeyed direct ↔
      ∃ wp ∈ wps, ∃ s e, wp.start_date = some s ∧ wp.end_date = some e ∧
        (direct.any fun m =>
          optEqInt m.wpno_i wp.wpno_i && (m.matched_by == "WPNO_I")) = false ∧
        heuristicCandidates unkeyed wp s e ≠ [] ∧
        r = mkRow wp.wpno_i "TIME+STATION+RECEIVER" (heuristicCandidates unkeyed wp s e) := by
  simp only [heuristicRows, List.mem_filterMap, heuristicRowFor_eq_some]

lemma mem_timeStationFilter {unkeyed : List Cons} {wp : WP} {s e : Int} {c : Cons} :
    c ∈ timeStationFilter unkeyed wp s e ↔
      c ∈ unkeyed ∧ (∃ d, c.del_date = some d ∧ s ≤ d ∧ d ≤ e) ∧
        optEqStr c.station wp.station = true := by
  simp only [timeStationFilter, List.mem_filter, Bool.and_eq_true]
  cases hd : c.del_date with
  | none => simp
  | some d => simp [and_assoc]

lemma heuristicCandidates_subset {unkeyed : List Cons} {wp : WP} {s e : Int} {c : Cons}
    (h : c ∈ heuristicCandidates unkeyed wp s e) :
    c ∈ timeStationFilter unkeyed wp s e := by
  unfold heuristicCandidates at h
  split at h
  · exact h
  · split at h
    next heq => rw [← heq] at h; exact List.mem_of_mem_filter h
    next heq =>
      split at h
      next heq2 => rw [← heq2] at h; exact List.mem_of_mem_filter h
      next heq2 => exact h

lemma matcher_rows {wps : List WP} {cons : List Cons} {rows : List MatchedRow}
    (h : match_consumption_to_workpacks wps cons = some rows) :
    rows = directRows wps (cons.filter fun c => c.wpno_i.isSome) ++
      heuristicRows wps (cons.filter fun c => c.wpno_i.isNone)
        (directRows wps (cons.filter fun c => c.wpno_i.isSome)) := by
  simp only [match_consumption_to_workpacks] at h
  split_ifs at h with h0 h1
  · exact (Option.some.inj h).symm

lemma rows_shape {wps : List WP} {cons : List Cons} {rows : List MatchedRow}
    (h : match_consumption_to_workpacks wps cons = some rows) {r : MatchedRow}
    (hr : r ∈ rows) : ∃ k tag ms, r = mkRow k tag ms := by
  rw [matcher_rows h] at hr
  rcases List.mem_append.mp hr with hd | hh
  · obtain ⟨k, -, -, rfl⟩ := mem_directRows.mp hd
    exact ⟨_, _, _, rfl⟩
  · obtain ⟨wp, -, s, e, -, -, -, -, rfl⟩ := mem_heuristicRows.mp hh
    exact ⟨_, _, _, rfl⟩

lemma map_filterMap_keys_subset {α β : Type} {l : List α} {f : α → Option β}
    {g : β → Option Int} {k : α → Option Int}
    (h : ∀ a b, f a = some b → g b = k a) :
    ∀ x ∈ (l.filterMap f).map g, x ∈ l.map k := by
  intro x hx
  simp only [List.mem_map, List.mem_filterMap] at hx ⊢
  obtain ⟨b, ⟨a, ha, hfa⟩, rfl⟩ := hx
  exact ⟨a, ha, (h a b hfa).symm⟩

lemma nodup_map_filterMap {α β : Type} {l : List α} {f : α → Option β}
    {g : β → Option Int} {k : α → Option Int} (hl : (l.map k).Nodup)
    (h : ∀ a b, f a = some b → g b = k a) :
    ((l.filterMap f).map g).Nodup := by
  induction l with
  | nil => simp
  | cons a l ih =>
      rw [List.map_cons, List.nodup_cons] at hl
      rw [List.filterMap_cons]
      cases hfa : f a with
      | none => exact ih hl.2
      | some b =>
          rw [List.map_cons, List.nodup_cons]
          refine ⟨fun hmem => ?_, ih hl.2⟩
          rw [h a b hfa] at hmem
          exact hl.1 (map_filterMap_keys_subset h _ hmem)

lemma nodup_directRows_keys (wps : List WP) (keyed : List Cons) :
    ((directRows wps keyed).map MatchedRow.wpno_i).Nodup := by
  unfold directRows
  refine nodup_map_filterMap (k := fun i => some i) ?_ ?_
  · exact (nodup_firstDedupInt _).map (Option.some_injective _)
  · intro a b hab
    obtain ⟨-, rfl⟩ := directRowFor_eq_some.mp hab
    rfl

lemma nodup_heuristicRows_keys (wps : List WP) (unkeyed : List Cons)
    (direct : List MatchedRow) (hnd : (wps.map WP.wpno_i).Nodup) :
    ((heuristicRows wps unkeyed direct).map MatchedRow.wpno_i).Nodup := by
  unfold heuristicRows
  refine nodup_map_filterMap (k := WP.wpno_i) hnd ?_
  intro wp r hr
  obtain ⟨s, e, -, -, -, -, rfl⟩ := heuristicRowFor_eq_some.mp hr
  rfl

lemma directRows_tag {wps : List WP} {keyed : List Cons} {r : MatchedRow}
    (h : r ∈ directRows wps keyed) : r.matched_by = "WPNO_I" := by
  obtain ⟨k, -, -, rfl⟩ := mem_directRows.mp h
  rfl

lemma directRows_key_some {wps : List WP} {keyed : List Cons} {r : MatchedRow}
    (h : r ∈ directRows wps keyed) : ∃ k, r.wpno_i = some k := by
  obtain ⟨k, -, -, rfl⟩ := mem_directRows.mp h
  exact ⟨k, rfl⟩

/-- A direct row and a heuristic row never share a key: the heuristic loop
skips every work package already satisfied by a `WPNO_I` row. -/
lemma direct_heuristic_keys_disjoint {wps : List WP} {keyed unkeyed : List Cons}
    {rd rh : MatchedRow} (hd : rd ∈ directRows wps keyed)
    (hh : rh ∈ heuristicRows wps unkeyed (directRows wps keyed)) :
    rd.wpno_i ≠ rh.wpno_i := by
  intro heq
  obtain ⟨wp, hwp, s, e, hs, he, hany, hne, rfl⟩ := mem_heuristicRows.mp hh
  obtain ⟨k, hk⟩ := directRows_key_some hd
  rw [mkRow_wpno] at heq
  rw [List.any_eq_false] at hany
  apply hany rd hd
  rw [hk, ← heq, hk, directRows_tag hd]
  simp [optEqInt]

lemma filter_ne_nil_iff {α : Type} {l : List α} {p : α → Bool} :
    l.filter p ≠ [] ↔ ∃ c ∈ l, p c = true := by
  constructor
  · intro h
    cases hf : l.filter p with
    | nil => exact absurd hf h
    | cons a as_ =>
        have ha : a ∈ l.filter p := hf ▸ List.mem_cons_self a as_
        exact ⟨a, List.mem_of_mem_filter ha, List.of_mem_filter ha⟩
  · rintro ⟨c, hc, hp⟩ hf
    have : c ∈ l.filter p := List.mem_filter.mpr ⟨hc, hp⟩
    simp [hf] at this

/-- The Matcher's output keys are pairwise distinct when the work-package
keys are (the invariant the spec states via its primary-key assumption). -/
lemma matcher_keys_nodup {wps : List WP} {cons : List Cons} {rows : List MatchedRow}
    (hnd : (wps.map WP.wpno_i).Nodup)
    (hout : match_consumption_to_workpacks wps cons = some rows) :
    (rows.map MatchedRow.wpno_i).Nodup := by
  rw [matcher_rows hout, List.map_append]
  refine List.Nodup.append (nodup_directRows_keys _ _)
    (nodup_heuristicRows_keys _ _ _ hnd) ?_
  intro x hx hy
  simp only [List.mem_map] at hx hy
  obtain ⟨rd, hd, rfl⟩ := hx
  obtain ⟨rh, hh, heq⟩ := hy
  exact direct_heuristic_keys_disjoint hd hh heq.symm

/-- **C3.** For every input whose work-package identifiers are pairwise
distinct (they are the table's primary key), each identifier contributes at
most one `MatchedConsumption` row: the output keys are pairwise distinct,
and a work package with a `WPNO_I` (direct) row never also has a
`TIME+STATION+RECEIVER` (heuristic) row. -/
theorem matcher_at_most_one_row_per_workpackage
    {wps : List WP} {cons : List Cons} {rows : List MatchedRow}
    (hnd : (wps.map WP.wpno_i).Nodup)
    (hout : match_consumption_to_workpacks wps cons = some rows) :
    (rows.map MatchedRow.wpno_i).Nodup ∧
      ∀ r ∈ rows, r.matched_by = "TIME+STATION+RECEIVER" →
        ∀ r' ∈ rows, r'.matched_by = "WPNO_I" → r'.wpno_i ≠ r.wpno_i := by
  refine ⟨matcher_keys_nodup hnd hout, ?_⟩
  intro r hr htag r' hr' htag'
  rw [matcher_rows hout] at hr hr'
  rcases List.mem_append.mp hr with h1 | h1
  · rw [directRows_tag h1] at htag
    exact absurd htag (by decide)
  rcases List.mem_append.mp hr' with h2 | h2
  · exact direct_heuristic_keys_disjoint h2 h1
  · obtain ⟨wp, -, s, e, -, -, -, -, rfl⟩ := mem_heuristicRows.mp h2
    rw [mkRow_tag] at htag'
    exact absurd htag' (by decide)

/-- **C1.** An unkeyed consumption line item whose transaction date falls
outside the work package's inclusive `[start, end]` window, or whose station
differs from the work package's station, never appears among the line items
aggregated into that work package's HEURISTIC row. -/
theorem heuristic_row_excludes_out_of_window_items
    {wps : List WP} {cons : List Cons} {rows : List MatchedRow} {wp : WP} {c : Cons}
    {s e : Int} {r : MatchedRow}
    (hnd : (wps.map WP.wpno_i).Nodup) (hwp : wp ∈ wps)
    (hs : wp.start_date = some s) (he : wp.end_date = some e)
    (hun : c.wpno_i = none)
    (hbad : (∀ d, c.del_date = some d → d < s ∨ e < d) ∨
      optEqStr c.station wp.station = false)
    (hout : match_consumption_to_workpacks wps cons = some rows)
    (hr : r ∈ rows) (htag : r.matched_by = "TIME+STATION+RECEIVER")
    (hkey : r.wpno_i = wp.wpno_i) :
    c ∉ r.items := by
  intro hc
  rw [matcher_rows hout] at hr
  rcases List.mem_append.mp hr with h1 | h1
  · rw [directRows_tag h1] at htag
    exact absurd htag (by decide)
  obtain ⟨wp', hwp', s', e', hs', he', hany, hne, rfl⟩ := mem_heuristicRows.mp h1
  rw [mkRow_wpno] at hkey
  have hww : wp' = wp := List.inj_on_of_nodup_map hnd hwp' hwp hkey
  subst hww
  rw [hs] at hs'
  rw [he] at he'
  obtain rfl : s = s' := Option.some.inj hs'
  obtain rfl : e = e' := Option.some.inj he'
  rw [mkRow_items] at hc
  obtain ⟨-, ⟨d, hd, hsd, hde⟩, hstation⟩ :=
    mem_timeStationFilter.mp (heuristicCandidates_subset hc)
  rcases hbad with hdate | hst
  · rcases hdate d hd with hlt | hlt
    · exact absurd hsd (not_le.mpr hlt)
    · exact absurd hde (not_le.mpr hlt)
  · rw [hstation] at hst
    exact Bool.noConfusion hst

/-- The three-stage narrowing of the heuristic candidate set, written with
the outer registration match already resolved, so the stages can be reasoned
about individually. -/
lemma heuristicCandidates_of_ac_some {unkeyed : List Cons} {wp : WP} {s e : Int}
    {r : String} (hac : wp.ac_registr = some r) :
    heuristicCandidates unkeyed wp s e =
      (match (timeStationFilter unkeyed wp s e).filter
          fun c => optEqStr c.ac_registr (some r) with
      | a :: as_ => a :: as_
      | [] =>
          match (timeStationFilter unkeyed wp s e).filter
              fun c => receiverContainsCI c.receiver r with
          | b :: bs => b :: bs
          | [] => timeStationFilter unkeyed wp s e) := by
  unfold heuristicCandidates
  rw [hac]

/-- **C2.** For a work package with a known aircraft registration, the
heuristic candidate set is computed in three stages from the time+station
filtered set `S`: items whose own registration matches if any exist, else
items whose receiver contains the registration case-insensitively if any
exist, else all of `S`. -/
theorem heuristic_candidates_three_stage
    {unkeyed : List Cons} {wp : WP} {s e : Int} {r : String}
    (hac : wp.ac_registr = some r) :
    ((∃ c ∈ timeStationFilter unkeyed wp s e, optEqStr c.ac_registr (some r) = true) →
        heuristicCandidates unkeyed wp s e =
          (timeStationFilter unkeyed wp s e).filter
            fun c => optEqStr c.ac_registr (some r)) ∧
    ((¬ ∃ c ∈ timeStationFilter unkeyed wp s e, optEqStr c.ac_registr (some r) = true) →
      (∃ c ∈ timeStationFilter unkeyed wp s e, receiverContainsCI c.receiver r = true) →
        heuristicCandidates unkeyed wp s e =
          (timeStationFilter unkeyed wp s e).filter
            fun c => receiverContainsCI c.receiver r) ∧
    ((¬ ∃ c ∈ timeStationFilter unkeyed wp s e, optEqStr c.ac_registr (some r) = true) →
      (¬ ∃ c ∈ timeStationFilter unkeyed wp s e, receiverContainsCI c.receiver r = true) →
        heuristicCandidates unkeyed wp s e = timeStationFilter unkeyed wp s e) := by
  rw [heuristicCandidates_of_ac_some hac]
  refine ⟨fun hyes => ?_, fun hno1 hyes => ?_, fun hno1 hno2 => ?_⟩
  · rcases hf : (timeStationFilter unkeyed wp s e).filter
        fun c => optEqStr c.ac_registr (some r) with _ | ⟨a, as_⟩
    · exact absurd hf (filter_ne_nil_iff.mpr hyes)
    · rw [hf]
  · rw [← filter_ne_nil_iff] at hyes
    rcases hf : (timeStationFilter unkeyed wp s e).filter
        fun c => optEqStr c.ac_registr (some r) with _ | ⟨a, as_⟩
    · rcases hf2 : (timeStationFilter unkeyed wp s e).filter
          fun c => receiverContainsCI c.receiver r with _ | ⟨b, bs⟩
      · exact absurd hf2 hyes
      · rw [hf, hf2]
    · exact absurd (filter_ne_nil_iff.mp (hf ▸ List.cons_ne_nil a as_)) hno1
  · rcases hf : (timeStationFilter unkeyed wp s e).filter
        fun c => optEqStr c.ac_registr (some r) with _ | ⟨a, as_⟩
    · rcases hf2 : (timeStationFilter unkeyed wp s e).filter
          fun c => receiverContainsCI c.receiver r with _ | ⟨b, bs⟩
      · rw [hf, hf2]
      · exact absurd (filter_ne_nil_iff.mp (hf2 ▸ List.cons_ne_nil b bs)) hno2
    · exact absurd (filter_ne_nil_iff.mp (hf ▸ List.cons_ne_nil a as_)) hno1
/-- **C10.** A consumption line item carrying a direct work-package key that
does not occur in the work-package table contributes to no
`MatchedConsumption` row at all: the direct path iterates only over the
table's keys, and the heuristic path only sees unkeyed items. -/
theorem orphan_keyed_item_contributes_nowhere
    {wps : List WP} {cons : List Cons} {rows : List MatchedRow} {c : Cons} {k : Int}
    (hc : c ∈ cons) (hk : c.wpno_i = some k)
    (habs : ∀ wp ∈ wps, wp.wpno_i ≠ some k)
    (hout : match_consumption_to_workpacks wps cons = some rows) :
    ∀ r ∈ rows, c ∉ r.items := by
  intro r hr hmem
  rw [matcher_rows hout] at hr
  rcases List.mem_append.mp hr with h1 | h1
  · obtain ⟨k', hk', hne, rfl⟩ := mem_directRows.mp h1
    rw [mkRow_items] at hmem
    have hm := List.mem_filter.mp hmem
    rw [hk] at hm
    obtain rfl : k = k' := optEqInt_some_some.mp hm.2
    obtain ⟨wp, hwp, hwpk⟩ := List.mem_filterMap.mp hk'
    exact habs wp hwp hwpk
  · obtain ⟨wp, hwp, s, e, hs, he, hany, hne, rfl⟩ := mem_heuristicRows.mp h1
    rw [mkRow_items] at hmem
    have h2 := (mem_timeStationFilter.mp (heuristicCandidates_subset hmem)).1
    have h3 := (List.mem_filter.mp h2).2
    rw [hk] at h3
    exact Bool.noConfusion h3

/-- **C4 (amended).** The heuristic path applies no mutual exclusion between
work packages: every work package with a non-null window that was not
satisfied by a direct match, and whose candidate set contains an unkeyed line
item, gets an output row containing that item — so an item lying in several
overlapping windows is aggregated into each of those rows (double-counting). -/
theorem heuristic_claims_every_containing_window
    {wps : List WP} {cons : List Cons} {rows : List MatchedRow} {wp : WP} {s e : Int}
    {c : Cons}
    (hout : match_consumption_to_workpacks wps cons = some rows)
    (hwp : wp ∈ wps) (hs : wp.start_date = some s) (he : wp.end_date = some e)
    (hskip : ((directRows wps (cons.filter fun x => x.wpno_i.isSome)).any fun m =>
        optEqInt m.wpno_i wp.wpno_i && (m.matched_by == "WPNO_I")) = false)
    (hc : c ∈ heuristicCandidates (cons.filter fun x => x.wpno_i.isNone) wp s e) :
    ∃ r ∈ rows, r.wpno_i = wp.wpno_i ∧ r.matched_by = "TIME+STATION+RECEIVER" ∧
      c ∈ r.items := by
  rw [matcher_rows hout]
  refine ⟨mkRow wp.wpno_i "TIME+STATION+RECEIVER"
      (heuristicCandidates (cons.filter fun x => x.wpno_i.isNone) wp s e),
    ?_, rfl, rfl, ?_⟩
  · apply List.mem_append_right
    rw [mem_heuristicRows]
    exact ⟨wp, hwp, s, e, hs, he, hskip, List.ne_nil_of_mem hc, rfl⟩
  · rw [mkRow_items]
    exact hc

lemma foldl_max_init_le (l : List ℕ) (a : ℕ) : a ≤ l.foldl max a := by
  induction l generalizing a with
  | nil => exact le_refl a
  | cons b l ih => exact le_trans (le_max_left a b) (ih (max a b))

lemma mem_le_foldl_max {l : List ℕ} {b : ℕ} (hb : b ∈ l) (a : ℕ) :
    b ≤ l.foldl max a := by
  induction l generalizing a with
  | nil => cases hb
  | cons c l ih =>
      rcases List.mem_cons.mp hb with rfl | hb'
      · exact le_trans (le_max_right a b) (foldl_max_init_le l (max a b))
      · exact ih hb' (max a c)

lemma foldl_max_mem (l : List ℕ) (a : ℕ) : l.foldl max a ∈ a :: l := by
  induction l generalizing a with
  | nil => exact List.mem_cons_self a []
  | cons b l ih =>
      rcases List.mem_cons.mp (ih (max a b)) with h | h
      · rcases max_choice a b with h' | h'
        · exact List.mem_cons.mpr (Or.inl (h.trans h'))
        · exact List.mem_cons.mpr (Or.inr (List.mem_cons.mpr (Or.inl (h.trans h'))))
      · exact List.mem_cons.mpr (Or.inr (List.mem_cons.mpr (Or.inr h)))

lemma foldl_min_le_init (l : List String) (a : String) : l.foldl min a ≤ a := by
  induction l generalizing a with
  | nil => exact le_refl a
  | cons b l ih => exact le_trans (ih (min a b)) (min_le_left a b)

lemma foldl_min_le_mem {l : List String} {b : String} (hb : b ∈ l) (a : String) :
    l.foldl min a ≤ b := by
  induction l generalizing a with
  | nil => cases hb
  | cons c l ih =>
      rcases List.mem_cons.mp hb with rfl | hb'
      · exact le_trans (foldl_min_le_init l (min a b)) (min_le_right a b)
      · exact ih hb' (min a c)

lemma foldl_min_mem (l : List String) (a : String) : l.foldl min a ∈ a :: l := by
  induction l generalizing a with
  | nil => exact List.mem_cons_self a []
  | cons b l ih =>
      rcases List.mem_cons.mp (ih (min a b)) with h | h
      · rcases min_choice a b with h' | h'
        · exact List.mem_cons.mpr (Or.inl (h.trans h'))
        · exact List.mem_cons.mpr (Or.inr (List.mem_cons.mpr (Or.inl (h.trans h'))))
      · exact List.mem_cons.mpr (Or.inr (List.mem_cons.mpr (Or.inr h)))

lemma stationModeFirst_of_all_null {l : List (Option String)}
    (h : l.filterMap id = ([] : List String)) :
    stationModeFirst l = l.head?.getD none := by
  unfold stationModeFirst
  rw [h]

/-- `leastMode` returns a value of maximal multiplicity that is `≤` every
other value of maximal multiplicity (pandas returns the modes sorted). -/
lemma leastMode_spec (v : String) (vs : List String) :
    ∃ m, leastMode v vs = some m ∧ m ∈ v :: vs ∧
      (∀ w ∈ v :: vs, (v :: vs).count w ≤ (v :: vs).count m) ∧
      (∀ w ∈ v :: vs, (v :: vs).count w = (v :: vs).count m → m ≤ w) := by
  have hvmem : (v :: vs).count v ∈ (v :: vs).map fun w => (v :: vs).count w :=
    List.mem_map_of_mem _ (List.mem_cons_self v vs)
  have hmax_mem := foldl_max_mem ((v :: vs).map fun w => (v :: vs).count w) 0
  have hone : 1 ≤ (v :: vs).count v := by
    rw [Nat.one_le_iff_ne_zero, Ne, List.count_eq_zero]
    exact fun hmem => hmem (List.mem_cons_self v vs)
  have hvle := mem_le_foldl_max hvmem 0
  have hattain : ∃ w ∈ v :: vs,
      (v :: vs).count w = ((v :: vs).map fun w => (v :: vs).count w).foldl max 0 := by
    rcases List.mem_cons.mp hmax_mem with h0 | h0
    · exfalso
      have h1 : (1 : ℕ) ≤ 0 := by
        calc (1 : ℕ) ≤ (v :: vs).count v := hone
        _ ≤ _ := hvle
        _ = 0 := h0
      exact Nat.not_succ_le_zero 0 h1
    · obtain ⟨w, hw, hwc⟩ := List.mem_map.mp h0
      exact ⟨w, hw, hwc⟩
  obtain ⟨w0, hw0, hw0c⟩ := hattain
  have hfmem : w0 ∈ (v :: vs).filter
      fun w => (v :: vs).count w =
        ((v :: vs).map fun w => (v :: vs).count w).foldl max 0 := by
    rw [List.mem_filter]
    exact ⟨hw0, by rw [decide_eq_true_eq]; exact hw0c⟩
  unfold leastMode
  rcases hf : (v :: vs).filter
      fun w => (v :: vs).count w =
        ((v :: vs).map fun w => (v :: vs).count w).foldl max 0
      with _ | ⟨m, ms⟩
  · rw [hf] at hfmem
    cases hfmem
  · refine ⟨strListMin m ms, rfl, ?_, ?_, ?_⟩
    · have hmm : strListMin m ms ∈ m :: ms := foldl_min_mem ms m
      rw [← hf] at hmm
      exact List.mem_of_mem_filter hmm
    · intro w hw
      have hmmem : strListMin m ms ∈ m :: ms := foldl_min_mem ms m
      rw [← hf] at hmmem
      have hmc := List.of_mem_filter hmmem
      rw [decide_eq_true_eq] at hmc
      rw [hmc]
      exact mem_le_foldl_max (List.mem_map_of_mem (fun w => (v :: vs).count w) hw) 0
    · intro w hw hwc
      have hmmem : strListMin m ms ∈ (v :: vs).filter
          fun w => (v :: vs).count w =
            ((v :: vs).map fun w => (v :: vs).count w).foldl max 0 := by
        rw [hf]
        exact foldl_min_mem ms m
      have hmc := List.of_mem_filter hmmem
      rw [decide_eq_true_eq] at hmc
      have hwf : w ∈ m :: ms := by
        rw [← hf, List.mem_filter]
        exact ⟨hw, by rw [decide_eq_true_eq, hwc, hmc]⟩
      rcases List.mem_cons.mp hwf with rfl | hwf'
      · exact foldl_min_le_init ms w
      · exact foldl_min_le_mem hwf' m

/-- `stationModeFirst` on a column with at least one non-null value returns
the least mode of the non-null values. -/
lemma stationModeFirst_least_mode {l : List (Option String)} {v : String}
    {vs : List String} (h : l.filterMap id = v :: vs) :
    ∃ m, stationModeFirst l = some m ∧ m ∈ v :: vs ∧
      (∀ w ∈ v :: vs, (v :: vs).count w ≤ (v :: vs).count m) ∧
      (∀ w ∈ v :: vs, (v :: vs).count w = (v :: vs).count m → m ≤ w) := by
  unfold stationModeFirst
  rw [h]
  exact leastMode_spec v vs

/-- **C5 (amended).** For a work package with matched line items, the
`consumption_station` field is the statistical mode of the matched items'
non-null stations, with ties broken in favour of the *least* station value in
lexicographic (sorted) order — pandas returns the modes sorted ascending —
not in favour of the first-occurring value; when every matched station is
null the field falls back to the first matched item's (null) station. -/
theorem consumption_station_is_least_mode
    {wps : List WP} {cons : List Cons} {rows : List MatchedRow} {r : MatchedRow}
    (hout : match_consumption_to_workpacks wps cons = some rows) (hr : r ∈ rows) :
    (((r.items.map Cons.station).filterMap id = []) →
        r.consumption_station = (r.items.map Cons.station).head?.getD none) ∧
    (∀ v vs, (r.items.map Cons.station).filterMap id = v :: vs →
        ∃ m, r.consumption_station = some m ∧ m ∈ v :: vs ∧
          (∀ w ∈ v :: vs, (v :: vs).count w ≤ (v :: vs).count m) ∧
          (∀ w ∈ v :: vs, (v :: vs).count w = (v :: vs).count m → m ≤ w)) := by
  obtain ⟨k, tag, ms, rfl⟩ := rows_shape hout hr
  constructor
  · intro hnull
    exact stationModeFirst_of_all_null hnull
  · intro v vs hcol
    exact stationModeFirst_least_mode hcol

/-! ## Master-view lemmas -/

lemma mkMaster_wp (wp : WP) (u : Option (ℚ × ℚ)) (m : Option MatchedRow)
    (p : Option PlannedAgg) : (mkMaster wp u m p).wp = wp := rfl

lemma mkMaster_hours (wp : WP) (u : Option (ℚ × ℚ)) (m : Option MatchedRow)
    (p : Option PlannedAgg) : (mkMaster wp u m p).aircraft_hours = u.map Prod.fst := rfl

lemma mkMaster_cycles (wp : WP) (u : Option (ℚ × ℚ)) (m : Option MatchedRow)
    (p : Option PlannedAgg) : (mkMaster wp u m p).aircraft_cycles = u.map Prod.snd := rfl

lemma mkMaster_hpc (wp : WP) (u : Option (ℚ × ℚ)) (m : Option MatchedRow)
    (p : Option PlannedAgg) :
    (mkMaster wp u m p).hours_per_cycle = pdiv (u.map Prod.fst) (u.map Prod.snd) := rfl

lemma nodup_planned_keys (raw : List PlannedItem) :
    ((planned_agg raw).map PlannedAgg.wpno_i).Nodup := by
  unfold planned_agg
  rw [List.map_map]
  have hid : (PlannedAgg.wpno_i ∘ fun k =>
      ({ wpno_i := k
         planned_parts_count := (((raw.filter fun p => p.wpno_i.isSome).filter
           fun p => optEqInt p.wpno_i (some k)).filter fun p => p.partno.isSome).length
         planned_qty := (((raw.filter fun p => p.wpno_i.isSome).filter
           fun p => optEqInt p.wpno_i (some k)).map PlannedItem.qty).sum
         planned_confirmed_qty := (((raw.filter fun p => p.wpno_i.isSome).filter
           fun p => optEqInt p.wpno_i (some k)).map PlannedItem.confirmed_qty).sum
         planned_cost := (((raw.filter fun p => p.wpno_i.isSome).filter
           fun p => optEqInt p.wpno_i (some k)).map PlannedItem.average_price).sum }
        : PlannedAgg)) = id := by
    funext k
    rfl
  rw [hid, List.map_id]
  exact nodup_firstDedupInt _

lemma nodup_filter_eq_single {α : Type} (l : List α) (f : α → Option Int)
    (hnd : (l.map f).Nodup) (a : Option Int) :
    l.filter (fun x => f x == a) = [] ∨ ∃ x, l.filter (fun x => f x == a) = [x] := by
  induction l with
  | nil => exact Or.inl rfl
  | cons b l ih =>
      rw [List.map_cons, List.nodup_cons] at hnd
      by_cases hb : (f b == a) = true
      · right
        refine ⟨b, ?_⟩
        have hcons : List.filter (fun x => f x == a) (b :: l) =
            b :: List.filter (fun x => f x == a) l := by
          simp [List.filter_cons, hb]
        have hnil : l.filter (fun x => f x == a) = [] := by
          rw [List.filter_eq_nil_iff]
          intro x hx hfx
          apply hnd.1
          have h1 : f x = a := by
            rwa [beq_iff_eq] at hfx
          have h2 : f b = a := by
            rwa [beq_iff_eq] at hb
          rw [h2, ← h1]
          exact List.mem_map_of_mem f hx
        rw [hcons, hnil]
      · have hcons : List.filter (fun x => f x == a) (b :: l) =
            List.filter (fun x => f x == a) l := by
          simp [List.filter_cons, hb]
        rw [hcons]
        exact ih hnd.2

lemma consLookup_some (rows : List MatchedRow) (wp : WP) :
    consLookup (some rows) wp =
      (match rows.filter fun m => m.wpno_i == wp.wpno_i with
      | [] => [none]
      | m :: ms => (m :: ms).map some) := rfl

lemma consLookup_single (matchedQ : Option (List MatchedRow)) (wp : WP)
    (hnd : ∀ rows, matchedQ = some rows → (rows.map MatchedRow.wpno_i).Nodup) :
    ∃ x, consLookup matchedQ wp = [x] := by
  cases matchedQ with
  | none => exact ⟨none, rfl⟩
  | some rows =>
      rw [consLookup_some]
      rcases nodup_filter_eq_single rows MatchedRow.wpno_i (hnd rows rfl) wp.wpno_i
        with h | ⟨x, h⟩
      · rw [h]
        exact ⟨none, rfl⟩
      · rw [h]
        exact ⟨some x, rfl⟩

lemma plannedLookup_single (pl : List PlannedAgg) (wp : WP)
    (hnd : (pl.map PlannedAgg.wpno_i).Nodup) :
    ∃ y, plannedLookup pl wp = [y] := by
  have hred : plannedLookup pl wp =
      (match pl.filter fun p => (some p.wpno_i : Option Int) == wp.wpno_i with
      | [] => [none]
      | q :: qs => (q :: qs).map some) := rfl
  rw [hred]
  have hnd2 : (pl.map fun p => (some p.wpno_i : Option Int)).Nodup := by
    have hc : (pl.map fun p => (some p.wpno_i : Option Int)) =
        (pl.map PlannedAgg.wpno_i).map some := by
      rw [List.map_map]
      rfl
    rw [hc]
    exact hnd.map (Option.some_injective _)
  rcases nodup_filter_eq_single pl (fun p => (some p.wpno_i : Option Int)) hnd2 wp.wpno_i
    with h | ⟨y, h⟩
  · rw [h]
    exact ⟨none, rfl⟩
  · rw [h]
    exact ⟨some y, rfl⟩

lemma masterRowsFor_map_wp (util : List Util) (matchedQ : Option (List MatchedRow))
    (pl : List PlannedAgg) (wp : WP)
    (hm : ∀ rows, matchedQ = some rows → (rows.map MatchedRow.wpno_i).Nodup)
    (hp : (pl.map PlannedAgg.wpno_i).Nodup) :
    (masterRowsFor util matchedQ pl wp).map Master.wp = [wp] := by
  obtain ⟨x, hx⟩ := consLookup_single matchedQ wp hm
  obtain ⟨y, hy⟩ := plannedLookup_single pl wp hp
  unfold masterRowsFor
  rw [hx, hy]
  rfl

/-- **C6.** Each row of the work-package table produces exactly one row of
the master view: projecting the output back to its work-package component
returns the input list unchanged, so the left joins with utilization,
matched consumption and planned material neither drop nor duplicate any
work-package row (given the table's primary-key property). -/
theorem master_view_one_row_per_workpackage
    {wps : List WP} (util : List Util) (cons : List Cons)
    (plannedRaw : List PlannedItem) (hnd : (wps.map WP.wpno_i).Nodup) :
    (get_master_view wps util cons plannedRaw).map Master.wp = wps := by
  have hm : ∀ rows, match_consumption_to_workpacks wps cons = some rows →
      (rows.map MatchedRow.wpno_i).Nodup := fun _ hrows => matcher_keys_nodup hnd hrows
  have hp := nodup_planned_keys plannedRaw
  clear hnd
  unfold get_master_view
  generalize match_consumption_to_workpacks wps cons = matchedQ at hm
  induction wps with
  | nil => rfl
  | cons wp l ih =>
      rw [List.flatMap_cons, List.map_append,
        masterRowsFor_map_wp _ _ _ _ hm hp, List.singleton_append]
      congr 1

lemma mem_get_master_view {wps : List WP} {util : List Util} {cons : List Cons}
    {plannedRaw : List PlannedItem} {row : Master}
    (h : row ∈ get_master_view wps util cons plannedRaw) :
    ∃ wp ∈ wps, ∃ m p, row = mkMaster wp (get_latest_util util wp) m p := by
  unfold get_master_view at h
  rw [List.mem_flatMap] at h
  obtain ⟨wp, hwp, hrow⟩ := h
  unfold masterRowsFor at hrow
  rw [List.mem_flatMap] at hrow
  obtain ⟨m, -, hrow⟩ := hrow
  rw [List.mem_map] at hrow
  obtain ⟨p, -, rfl⟩ := hrow
  exact ⟨wp, hwp, m, p, rfl⟩

/-- **C7.** In every master row, `planning_accuracy` is non-null exactly when
`planned_parts_count > 0` and `consumed_parts_count` is non-null, and is then
`(1 - |consumed - planned| / planned) * 100`; otherwise it is the null
sentinel. -/
theorem planning_accuracy_defined_iff
    {wps : List WP} {util : List Util} {cons : List Cons}
    {plannedRaw : List PlannedItem} {row : Master}
    (h : row ∈ get_master_view wps util cons plannedRaw) :
    (row.planning_accuracy ≠ none ↔
      (∃ q, row.planned_parts_count = some q ∧ 0 < q) ∧
        row.consumed_parts_count ≠ none) ∧
    (∀ q c, row.planned_parts_count = some q → row.consumed_parts_count = some c →
      0 < q →
      row.planning_accuracy = some ((1 - |(c : ℚ) - (q : ℚ)| / (q : ℚ)) * 100)) := by
  obtain ⟨wp, -, m, p, rfl⟩ := mem_get_master_view h
  rcases m with _ | mr <;> rcases p with _ | pa <;>
    simp [mkMaster, Master.consumed_parts_count, Master.planned_parts_count]
  by_cases h0 : 0 < pa.planned_parts_count
  · simp [h0]
    omega
  · simp [h0]
    omega

/-- `get_latest_util` when the registration or the start date is null: both
utilization fields are null. -/
lemma get_latest_util_none_left {util : List Util} {wp : WP}
    (h : wp.ac_registr = none ∨ wp.start_date = none) :
    get_latest_util util wp = none := by
  unfold get_latest_util
  rcases h with h | h
  · rw [h]
  · cases hac : wp.ac_registr with
    | none => rfl
    | some r => rw [h]

/-- `get_latest_util` with a known registration and start date, with the
two-scrutinee match resolved so the stages can be reasoned about. -/
lemma get_latest_util_of_some {util : List Util} {wp : WP} {r : String} {s : Int}
    (hac : wp.ac_registr = some r) (hs : wp.start_date = some s) :
    get_latest_util util wp =
      (if (util.filter fun u => optEqStr u.ac_registr (some r)).isEmpty then none
       else
        match ((util.filter fun u => optEqStr u.ac_registr (some r)).filter fun u =>
            match u.date with
            | some d => decide (d ≤ s)
            | none => false).argmax dateKeyBot with
        | some u => some (u.tah, u.tac)
        | none =>
            match (util.filter fun u => optEqStr u.ac_registr (some r)).argmin
                dateKeyTop with
            | some u => some (u.tah, u.tac)
            | none => none) := by
  unfold get_latest_util
  rw [hac, hs]

lemma date_le_pred_true {u : Util} {s : Int} :
    ((match u.date with
      | some d => decide (d ≤ s)
      | none => false) = true) ↔ ∃ d, u.date = some d ∧ d ≤ s := by
  cases u.date <;> simp

/-- **C8.** Each master row's `aircraft_hours`/`aircraft_cycles` come from
the latest utilization snapshot of the work package's aircraft dated at or
before the start date; if none precede it, from an earliest available
snapshot of that aircraft (nulls sorting last); with no snapshots at all, or
a null registration or start date, both fields are null. -/
theorem utilization_fields_from_latest_snapshot
    {wps : List WP} {util : List Util} {cons : List Cons}
    {plannedRaw : List PlannedItem} {row : Master}
    (h : row ∈ get_master_view wps util cons plannedRaw) :
    ((row.wp.ac_registr = none ∨ row.wp.start_date = none) →
        row.aircraft_hours = none ∧ row.aircraft_cycles = none) ∧
    (∀ r s, row.wp.ac_registr = some r → row.wp.start_date = some s →
      ((util.filter fun u => optEqStr u.ac_registr (some r)) = [] →
          row.aircraft_hours = none ∧ row.aircraft_cycles = none) ∧
      ((∃ u ∈ util.filter fun u => optEqStr u.ac_registr (some r),
          ∃ d, u.date = some d ∧ d ≤ s) →
        ∃ u ∈ util.filter fun u => optEqStr u.ac_registr (some r),
          ∃ d, u.date = some d ∧ d ≤ s ∧
            (∀ v ∈ util.filter fun u => optEqStr u.ac_registr (some r),
              ∀ d', v.date = some d' → d' ≤ s → d' ≤ d) ∧
            row.aircraft_hours = some u.tah ∧ row.aircraft_cycles = some u.tac) ∧
      ((util.filter fun u => optEqStr u.ac_registr (some r)) ≠ [] →
        (¬ ∃ u ∈ util.filter fun u => optEqStr u.ac_registr (some r),
            ∃ d, u.date = some d ∧ d ≤ s) →
        ∃ u ∈ util.filter fun u => optEqStr u.ac_registr (some r),
          (∀ v ∈ util.filter fun u => optEqStr u.ac_registr (some r),
            dateKeyTop u ≤ dateKeyTop v) ∧
          row.aircraft_hours = some u.tah ∧ row.aircraft_cycles = some u.tac)) := by
  obtain ⟨wp, -, m, p, rfl⟩ := mem_get_master_view h
  rw [mkMaster_wp]
  constructor
  · intro hnull
    rw [mkMaster_hours, mkMaster_cycles, get_latest_util_none_left hnull]
    exact ⟨rfl, rfl⟩
  · intro r s hac hs
    rw [mkMaster_hours, mkMaster_cycles, get_latest_util_of_some hac hs]
    refine ⟨?_, ?_, ?_⟩
    · intro hnil
      rw [hnil]
      exact ⟨rfl, rfl⟩
    · intro hex
      obtain ⟨u1, hu1, d1, hd1, hds1⟩ := hex
      have hne : (util.filter fun u => optEqStr u.ac_registr (some r)) ≠ [] :=
        List.ne_nil_of_mem hu1
      rw [if_neg (by simpa [List.isEmpty_iff] using hne)]
      have helig : u1 ∈ (util.filter fun u => optEqStr u.ac_registr (some r)).filter
          fun u => match u.date with
                   | some d => decide (d ≤ s)
                   | none => false := by
        rw [List.mem_filter]
        exact ⟨hu1, date_le_pred_true.mpr ⟨d1, hd1, hds1⟩⟩
      have hene : ((util.filter fun u => optEqStr u.ac_registr (some r)).filter
          fun u => match u.date with
                   | some d => decide (d ≤ s)
                   | none => false) ≠ [] := List.ne_nil_of_mem helig
      rcases hargmax : ((util.filter fun u => optEqStr u.ac_registr (some r)).filter
          fun u => match u.date with
                   | some d => decide (d ≤ s)
                   | none => false).argmax dateKeyBot with _ | u0
      · exact absurd (List.argmax_eq_none.mp hargmax) hene
      · have hu0mem : u0 ∈ (util.filter fun u => optEqStr u.ac_registr (some r)).filter
            fun u => match u.date with
                     | some d => decide (d ≤ s)
                     | none => false :=
          List.argmax_mem (Option.mem_def.mpr hargmax)
        rw [hargmax]
        have hu0A := List.mem_of_mem_filter hu0mem
        obtain ⟨d0, hd0, hds0⟩ := date_le_pred_true.mp (List.mem_filter.mp hu0mem).2
        refine ⟨u0, hu0A, d0, hd0, hds0, ?_, rfl, rfl⟩
        intro v hv d' hd' hds'
        have hvelig : v ∈ (util.filter fun u => optEqStr u.ac_registr (some r)).filter
            fun u => match u.date with
                     | some d => decide (d ≤ s)
                     | none => false := by
          rw [List.mem_filter]
          exact ⟨hv, date_le_pred_true.mpr ⟨d', hd', hds'⟩⟩
        have hle := List.le_of_mem_argmax hvelig (Option.mem_def.mpr hargmax)
        have hle2 : (d' : WithBot ℤ) ≤ (d0 : WithBot ℤ) := by
          simpa [dateKeyBot, hd', hd0] using hle
        exact_mod_cast hle2
    · intro hne hnex
      rw [if_neg (by simpa [List.isEmpty_iff] using hne)]
      have helig_nil : ((util.filter fun u => optEqStr u.ac_registr (some r)).filter
          fun u => match u.date with
                   | some d => decide (d ≤ s)
                   | none => false) = [] := by
        rw [List.filter_eq_nil_iff]
        intro u hu hpred
        exact hnex ⟨u, hu, date_le_pred_true.mp hpred⟩
      rw [helig_nil]
      rcases hargmin : (util.filter fun u => optEqStr u.ac_registr (some r)).argmin
          dateKeyTop with _ | u0
      · exact absurd (List.argmin_eq_none.mp hargmin) hne
      · rw [hargmin]
        refine ⟨u0, List.argmin_mem (Option.mem_def.mpr hargmin), ?_, rfl, rfl⟩
        intro v hv
        exact List.le_of_mem_argmin hv (Option.mem_def.mpr hargmin)

/-- **C9 (amended).** Whenever `aircraft_cycles` is zero or missing,
`hours_per_cycle` is never a finite value and no exception is raised: it is
the `NaN` sentinel when cycles is missing or when hours is zero, and a signed
infinity (not `NaN`) when cycles is zero and hours non-zero — numpy float
division by zero produces `±inf`, not `NaN`. -/
theorem hours_per_cycle_nonfinite_on_degenerate
    {wps : List WP} {util : List Util} {cons : List Cons}
    {plannedRaw : List PlannedItem} {row : Master}
    (h : row ∈ get_master_view wps util cons plannedRaw)
    (hc : row.aircraft_cycles = some 0 ∨ row.aircraft_cycles = none) :
    row.hours_per_cycle.isFinite = false ∧
    (row.aircraft_cycles = none → row.hours_per_cycle = PF.nan) ∧
    (∀ hq, row.aircraft_cycles = some 0 → row.aircraft_hours = some hq →
      row.hours_per_cycle =
        if hq = 0 then PF.nan else PF.inf (decide (0 < hq))) := by
  obtain ⟨wp, -, m, p, rfl⟩ := mem_get_master_view h
  rw [mkMaster_cycles] at hc ⊢
  rw [mkMaster_hours, mkMaster_hpc]
  rcases hu : get_latest_util util wp with _ | ⟨a, b⟩
  · refine ⟨rfl, fun _ => rfl, fun hq h0 _ => Option.noConfusion h0⟩
  · rw [hu] at hc
    rcases hc with hc | hc
    · obtain rfl : b = 0 := by simpa using hc
      refine ⟨?_, ?_, ?_⟩
      · by_cases ha : a = 0 <;> simp [pdiv, PF.isFinite, ha]
      · intro hnone
        exact Option.noConfusion hnone
      · intro hq _ hhq
        obtain rfl : a = hq := by simpa using hhq
        simp [pdiv]
    · exact Option.noConfusion hc

/-! ## Concrete fixtures for witnesses and counterexamples -/

/-- Work package 1: station AMS, window `[0, 10]`, aircraft SE-ABC. -/
def wpX : WP :=
  { wpno_i := some 1, start_date := some 0, end_date := some 10,
    station := some "AMS", ac_registr := some "SE-ABC" }

/-- Work package 2: same station and aircraft, overlapping window `[5, 15]`. -/
def wpY : WP :=
  { wpno_i := some 2, start_date := some 5, end_date := some 15,
    station := some "AMS", ac_registr := some "SE-ABC" }

/-- An unkeyed line item inside both windows (date 7, station AMS, SE-ABC). -/
def cUn : Cons :=
  { wpno_i := none, del_date := some 7, station := some "AMS", receiver := none,
    ac_registr := some "SE-ABC", qty := -3, average_price := 150,
    material_category := "consumable" }

/-- An unkeyed line item at the wrong station (CPH). -/
def cBad : Cons :=
  { wpno_i := none, del_date := some 7, station := some "CPH", receiver := none,
    ac_registr := some "SE-ABC", qty := -1, average_price := 20,
    material_category := "consumable" }

/-- A keyed line item for work package 1, station B. -/
def cB1 : Cons :=
  { wpno_i := some 1, del_date := some 1, station := some "B", receiver := none,
    ac_registr := none, qty := -1, average_price := 10,
    material_category := "consumable" }

/-- A keyed line item for work package 1, station A. -/
def cA1 : Cons :=
  { wpno_i := some 1, del_date := some 1, station := some "A", receiver := none,
    ac_registr := none, qty := -1, average_price := 10,
    material_category := "consumable" }

/-- A keyed line item for work package 1, station AMS. -/
def cK1 : Cons :=
  { wpno_i := some 1, del_date := some 2, station := some "AMS", receiver := none,
    ac_registr := none, qty := -2, average_price := 30,
    material_category := "consumable" }

/-- A line item keyed with `99`, a key absent from the work-package table. -/
def cOrphan : Cons :=
  { wpno_i := some 99, del_date := some 1, station := some "AMS", receiver := none,
    ac_registr := none, qty := -1, average_price := 5,
    material_category := "consumable" }

/-- A planned-material line item for work package 1. -/
def pItem : PlannedItem :=
  { wpno_i := some 1, partno := some "P1", qty := 1, confirmed_qty := 1,
    average_price := 2 }

/-- Snapshot of SE-ABC before `wpX`'s start. -/
def uEarly : Util :=
  { ac_registr := some "SE-ABC", date := some (-5), tah := 100, tac := 50 }

/-- Snapshot of SE-ABC after `wpX`'s start. -/
def uLate : Util :=
  { ac_registr := some "SE-ABC", date := some 20, tah := 200, tac := 60 }

/-- Snapshot of SE-ABC with zero cycles, before `wpX`'s start. -/
def uZeroCyc : Util :=
  { ac_registr := some "SE-ABC", date := some (-1), tah := 100, tac := 0 }

/-- Placeholder row used only as the default of `List.getD`. -/
def rowDefault : MatchedRow := mkRow none "" []

/-- Placeholder master row used only as the default of `List.getD`. -/
def mDefault : Master :=
  mkMaster { wpno_i := none, start_date := none, end_date := none,
             station := none, ac_registr := none } none none none

/-- Matcher output on two overlapping work packages and one unkeyed item. -/
def rows3 : List MatchedRow :=
  (match_consumption_to_workpacks [wpX, wpY] [cUn]).getD []

/-- The single matcher row on `[wpX]` with items `[cUn, cBad]`. -/
def row1 : MatchedRow :=
  ((match_consumption_to_workpacks [wpX] [cUn, cBad]).getD []).getD 0 rowDefault

/-- Matcher output for the station-tie input. -/
def rows5 : List MatchedRow :=
  (match_consumption_to_workpacks [wpX] [cB1, cA1]).getD []

/-- The single matcher row of the station-tie input. -/
def row5 : MatchedRow := rows5.getD 0 rowDefault

/-- Matcher output with an orphan-keyed item present. -/
def rows10 : List MatchedRow :=
  (match_consumption_to_workpacks [wpX] [cK1, cOrphan]).getD []

/-- Master row of the planned-10 / consumed-12 scenario. -/
def mRow7 : Master :=
  (get_master_view [wpX] [] (List.replicate 12 cK1) (List.replicate 10 pItem)).getD
    0 mDefault

/-- Master row of the utilization-lookup scenario. -/
def mRow8 : Master :=
  (get_master_view [wpX] [uEarly, uLate] [] []).getD 0 mDefault

/-- Master row of the zero-cycles scenario. -/
def mRow9 : Master :=
  (get_master_view [wpX] [uZeroCyc] [] []).getD 0 mDefault

/-! ## Witnesses and counterexamples -/

/-- Matcher output on `[wpX]` with items `[cUn, cBad]`. -/
def rows1 : List MatchedRow :=
  (match_consumption_to_workpacks [wpX] [cUn, cBad]).getD []

/-- Witness for C1: the wrong-station item `cBad` is absent from `wpX`'s
heuristic row on a concrete input. -/
theorem heuristic_row_excludes_out_of_window_items_witness :
    optEqStr cBad.station wpX.station = false ∧ cBad ∉ row1.items :=
  ⟨by decide,
    @heuristic_row_excludes_out_of_window_items [wpX] [cUn, cBad] rows1 wpX cBad
      0 10 row1 (by decide) (by decide) rfl rfl rfl (Or.inr (by decide))
      (by with_unfolding_all decide) (by with_unfolding_all decide)
      (by with_unfolding_all decide) (by with_unfolding_all decide)⟩

/-- Witness for C2: on a concrete input whose candidate set contains an item
with the work package's registration, stage one applies. -/
theorem heuristic_candidates_three_stage_witness :
    wpX.ac_registr = some "SE-ABC" ∧
    heuristicCandidates [cUn] wpX 0 10 =
      (timeStationFilter [cUn] wpX 0 10).filter
        fun c => optEqStr c.ac_registr (some "SE-ABC") :=
  ⟨rfl, (heuristic_candidates_three_stage rfl).1
    ⟨cUn, by with_unfolding_all decide, by decide⟩⟩

/-- Witness for C3: two distinct work packages, one unkeyed item. -/
theorem matcher_at_most_one_row_per_workpackage_witness :
    match_consumption_to_workpacks [wpX, wpY] [cUn] = some rows3 ∧
    ((rows3.map MatchedRow.wpno_i).Nodup ∧
      ∀ r ∈ rows3, r.matched_by = "TIME+STATION+RECEIVER" →
        ∀ r' ∈ rows3, r'.matched_by = "WPNO_I" → r'.wpno_i ≠ r.wpno_i) :=
  ⟨by with_unfolding_all decide,
    @matcher_at_most_one_row_per_workpackage [wpX, wpY] [cUn] rows3 (by decide)
      (by with_unfolding_all decide)⟩

/-- Counterexample for C4: with two overlapping windows, the single unkeyed
item `cUn` is aggregated into the rows of *both* work packages, refuting
"each unkeyed line item contributes to at most one work package". -/
theorem heuristic_double_counting_counterexample :
    match_consumption_to_workpacks [wpX, wpY] [cUn] =
      some [mkRow (some 1) "TIME+STATION+RECEIVER" [cUn],
            mkRow (some 2) "TIME+STATION+RECEIVER" [cUn]] ∧
    cUn ∈ (mkRow (some 1) "TIME+STATION+RECEIVER" [cUn]).items ∧
    cUn ∈ (mkRow (some 2) "TIME+STATION+RECEIVER" [cUn]).items ∧
    (mkRow (some 1) "TIME+STATION+RECEIVER" [cUn]).wpno_i ≠
      (mkRow (some 2) "TIME+STATION+RECEIVER" [cUn]).wpno_i := by
  with_unfolding_all decide

/-- Witness for C4 (amended): `wpY` also claims `cUn` even though `wpX`
already claimed it. -/
theorem heuristic_claims_every_containing_window_witness :
    ∃ r ∈ rows3, r.wpno_i = wpY.wpno_i ∧ r.matched_by = "TIME+STATION+RECEIVER" ∧
      cUn ∈ r.items :=
  @heuristic_claims_every_containing_window [wpX, wpY] [cUn] rows3 wpY 5 15 cUn
    (by with_unfolding_all decide) (by decide) rfl rfl
    (by with_unfolding_all decide) (by with_unfolding_all decide)

/-- Counterexample for C5: stations `["B", "A"]` are tied for the mode; the
first-occurring value is `"B"`, but the field is `"A"` — pandas returns the
modes sorted, so the tie is *not* broken by first occurrence. -/
theorem consumption_station_tie_counterexample :
    match_consumption_to_workpacks [wpX] [cB1, cA1] = some [row5] ∧
    row5.items.map Cons.station = [some "B", some "A"] ∧
    ((row5.items.map Cons.station).filterMap id).count "B" =
      ((row5.items.map Cons.station).filterMap id).count "A" ∧
    ((row5.items.map Cons.station).filterMap id).head? = some "B" ∧
    row5.consumption_station = some "A" ∧
    (some "A" : Option String) ≠ some "B" := by
  with_unfolding_all decide

/-- Witness for C5 (amended): the least-mode description applied to the tie
input, instantiated at its non-null station list `["B", "A"]`. -/
theorem consumption_station_is_least_mode_witness :
    ∃ m, row5.consumption_station = some m ∧ m ∈ ["B", "A"] ∧
      (∀ w ∈ ["B", "A"], (["B", "A"] : List String).count w ≤
        (["B", "A"] : List String).count m) ∧
      (∀ w ∈ ["B", "A"], (["B", "A"] : List String).count w =
        (["B", "A"] : List String).count m → m ≤ w) :=
  (@consumption_station_is_least_mode [wpX] [cB1, cA1] rows5 row5
    (by with_unfolding_all decide) (by with_unfolding_all decide)).2 "B" ["A"]
    (by with_unfolding_all decide)

/-- Witness for C6: two work packages, one unkeyed item, no utilization or
planned data. -/
theorem master_view_one_row_per_workpackage_witness :
    ([wpX, wpY].map WP.wpno_i).Nodup ∧
    (get_master_view [wpX, wpY] [] [cUn] []).map Master.wp = [wpX, wpY] :=
  ⟨by decide, @master_view_one_row_per_workpackage [wpX, wpY] [] [cUn] [] (by decide)⟩

/-- Witness for C7: the spec's example — planned 10, consumed 12 gives
`parts_variance = 2` and `planning_accuracy = 80`. -/
theorem planning_accuracy_defined_iff_witness :
    mRow7 ∈ get_master_view [wpX] [] (List.replicate 12 cK1)
      (List.replicate 10 pItem) ∧
    mRow7.parts_variance = some 2 ∧
    mRow7.planning_accuracy = some 80 ∧
    (mRow7.planning_accuracy ≠ none ↔
      (∃ q, mRow7.planned_parts_count = some q ∧ 0 < q) ∧
        mRow7.consumed_parts_count ≠ none) := by
  have hmem : mRow7 ∈ get_master_view [wpX] [] (List.replicate 12 cK1)
      (List.replicate 10 pItem) := by with_unfolding_all decide
  exact ⟨hmem, by with_unfolding_all decide, by with_unfolding_all decide,
    (planning_accuracy_defined_iff hmem).1⟩

/-- Witness for C8: with snapshots on both sides of the start date, the
fields come from the latest snapshot at or before it (`uEarly`). -/
theorem utilization_fields_from_latest_snapshot_witness :
    mRow8 ∈ get_master_view [wpX] [uEarly, uLate] [] [] ∧
    mRow8.aircraft_hours = some 100 ∧ mRow8.aircraft_cycles = some 50 ∧
    (∃ u ∈ [uEarly, uLate].filter fun u => optEqStr u.ac_registr (some "SE-ABC"),
      ∃ d, u.date = some d ∧ d ≤ 0 ∧
        (∀ v ∈ [uEarly, uLate].filter fun u => optEqStr u.ac_registr (some "SE-ABC"),
          ∀ d', v.date = some d' → d' ≤ 0 → d' ≤ d) ∧
        mRow8.aircraft_hours = some u.tah ∧ mRow8.aircraft_cycles = some u.tac) := by
  have hmem : mRow8 ∈ get_master_view [wpX] [uEarly, uLate] [] [] := by
    with_unfolding_all decide
  exact ⟨hmem, by with_unfolding_all decide, by with_unfolding_all decide,
    ((utilization_fields_from_latest_snapshot hmem).2 "SE-ABC" 0
      (by with_unfolding_all decide) (by with_unfolding_all decide)).2.1
      ⟨uEarly, by decide, ⟨-5, rfl, by decide⟩⟩⟩

/-- Counterexample for C9: cycles is zero and hours is 100, and the field is
`+∞`, not the claimed `NaN` sentinel. -/
theorem hours_per_cycle_inf_counterexample :
    mRow9 ∈ get_master_view [wpX] [uZeroCyc] [] [] ∧
    mRow9.aircraft_cycles = some 0 ∧ mRow9.aircraft_hours = some 100 ∧
    mRow9.hours_per_cycle = PF.inf true ∧ PF.inf true ≠ PF.nan := by
  with_unfolding_all decide

/-- Witness for C9 (amended): the zero-cycles row is non-finite. -/
theorem hours_per_cycle_nonfinite_on_degenerate_witness :
    mRow9.hours_per_cycle.isFinite = false ∧
    (mRow9.aircraft_cycles = none → mRow9.hours_per_cycle = PF.nan) ∧
    (∀ hq, mRow9.aircraft_cycles = some 0 → mRow9.aircraft_hours = some hq →
      mRow9.hours_per_cycle =
        if hq = 0 then PF.nan else PF.inf (decide (0 < hq))) := by
  have hmem : mRow9 ∈ get_master_view [wpX] [uZeroCyc] [] [] := by
    with_unfolding_all decide
  exact hours_per_cycle_nonfinite_on_degenerate hmem
    (Or.inl (by with_unfolding_all decide))

/-- Witness for C10: the orphan-keyed item `cOrphan` appears in no output
row on a concrete input. -/
theorem orphan_keyed_item_contributes_nowhere_witness :
    cOrphan.wpno_i = some 99 ∧ ∀ r ∈ rows10, cOrphan ∉ r.items :=
  ⟨rfl, @orphan_keyed_item_contributes_nowhere [wpX] [cK1, cOrphan] rows10 cOrphan
    99 (by decide) rfl (by decide) (by with_unfolding_all decide)⟩

end SAS
